import Mathlib

/-!
Shallow embedding of the VertiTab side panel (src/js/sidepanel.js).

The rendered tree of the panel is modelled as the ordered root list of the
`.tab-list` container: each child is either a tab item or a group item
owning an ordered run of tab items (its group body).  The functions below
are translated from the classes `Tabs`, `DnD`, `Groups`, `ContextMenu` and
`CloseConfirm` of the source file; external chrome.* mutations performed by
the drag-and-drop engine are reified as an `ApiCall` trace.
-/

/-- The NO_GROUP sentinel `chrome.tabGroups.TAB_GROUP_ID_NONE`. -/
def NoGroup : Int := -1

/-- The fields of an external `chrome.tabs.Tab` record the panel reads. -/
structure TabInfo where
  id : Nat
  windowId : Nat
  index : Nat
  groupId : Int
  pinned : Bool
  active : Bool
  deriving DecidableEq

/-- Cached group metadata (the `chrome.tabGroups.TabGroup` fields the panel
reads: title, color, collapsed). -/
structure GroupInfo where
  title : String
  color : String
  collapsed : Bool
  deriving DecidableEq

/-- A rendered tab item: DOM element `tab-<id>` together with its
`dataset.group` tag and its `tab-active` / `tab-pin` classes. -/
structure TabNode where
  id : Nat
  tag : Int
  act : Bool
  pin : Bool
  deriving DecidableEq

/-- A child of the root `.tab-list`: a root-level tab item, or a group item
`group-<gid>` whose body owns an ordered run of tab items. -/
inductive DomNode where
  | tab (t : TabNode)
  | group (gid : Int) (body : List TabNode)
  deriving DecidableEq

/-- The root list of the rendered tree (`Tabs.getMainList()`'s children). -/
abbrev TabList := List DomNode

/-- The flattened tab-item sequence in rendered order, as returned by
`querySelectorAll(".tab-item")` on the main list. -/
def flatTabs : TabList → List TabNode
  | [] => []
  | .tab t :: r => t :: flatTabs r
  | .group _ b :: r => b ++ flatTabs r

/-- The flattened sequence of rendered tab ids. -/
def flatIds (tr : TabList) : List Nat := (flatTabs tr).map (·.id)

/-- JS `Array.prototype.indexOf`: 0-based position, or -1 when absent. -/
def idxOf (x : Nat) : List Nat → Int
  | [] => -1
  | y :: ys => if y = x then 0 else (if idxOf x ys = -1 then -1 else idxOf x ys + 1)

/-- `Array.prototype.indexOf` applied to an element that may be null
(`null` is found nowhere, giving -1). -/
def jsIndexOfOpt (tr : TabList) : Option Nat → Int
  | none => -1
  | some v => idxOf v (flatIds tr)

/-- `document.getElementById("tab-" + rid)` resolved to the first rendered
tab item carrying that id. -/
def findTabNode (rid : Nat) : TabList → Option TabNode
  | [] => none
  | .tab t :: r => if t.id = rid then some t else findTabNode rid r
  | .group _ b :: r =>
    match b.find? (fun t => t.id == rid) with
    | some t => some t
    | none => findTabNode rid r

/-- `Groups.isInGroup`: the tab item's parent element is a group body. -/
def tabInGroupBody (rid : Nat) : TabList → Bool
  | [] => false
  | .tab _ :: r => tabInGroupBody rid r
  | .group _ b :: r => b.any (fun t => t.id == rid) || tabInGroupBody rid r

/-- The id of the group whose body holds the given tab item, if any
(the tab's `closest(".group-item")`). -/
def enclosingGroupOf (rid : Nat) : TabList → Option Int
  | [] => none
  | .tab _ :: r => enclosingGroupOf rid r
  | .group g b :: r => if b.any (fun t => t.id == rid) then some g else enclosingGroupOf rid r

/-- `document.getElementById("group-" + gid)`: the body of the first group
item with this id. -/
def groupBody (gid : Int) : TabList → Option (List TabNode)
  | [] => none
  | .tab _ :: r => groupBody gid r
  | .group g b :: r => if g = gid then some b else groupBody gid r

/-- The ids of the root-level group items, in order. -/
def rootGroupIds : TabList → List Int
  | [] => []
  | .tab _ :: r => rootGroupIds r
  | .group g _ :: r => g :: rootGroupIds r

/-- Whether the tab item `rid` is a direct child of the main list
(`referenceTab.parentElement === mainList`). -/
def isRootTab (rid : Nat) : TabList → Bool
  | [] => false
  | .tab t :: r => (t.id == rid) || isRootTab rid r
  | .group _ _ :: r => isRootTab rid r

/-- `element.remove()` on the tab item `tid`, wherever it is rendered. -/
def eraseTab (tid : Nat) : TabList → TabList
  | [] => []
  | .tab t :: r => if t.id = tid then eraseTab tid r else .tab t :: eraseTab tid r
  | .group g b :: r => .group g (b.filter (fun t => t.id != tid)) :: eraseTab tid r

/-- Insert `x` immediately before the tab `rid` within one group body. -/
def insertBeforeTabBody (x : TabNode) (rid : Nat) : List TabNode → List TabNode
  | [] => []
  | t :: ts => if t.id = rid then x :: t :: ts else t :: insertBeforeTabBody x rid ts

/-- `dropTarget.before(tabElement)` where the drop target is the tab item
`rid`: insert `x` as its previous sibling, in whatever parent holds it. -/
def insertBeforeTab (x : TabNode) (rid : Nat) : TabList → TabList
  | [] => []
  | .tab t :: r =>
    if t.id = rid then .tab x :: .tab t :: r else .tab t :: insertBeforeTab x rid r
  | .group g b :: r =>
    if b.any (fun t => t.id == rid) then .group g (insertBeforeTabBody x rid b) :: r
    else .group g b :: insertBeforeTab x rid r

/-- `dropTarget.before(node)` where the drop target is the group item `gid`. -/
def insertBeforeGroupNode (x : DomNode) (gid : Int) : TabList → TabList
  | [] => []
  | .tab t :: r => .tab t :: insertBeforeGroupNode x gid r
  | .group g b :: r =>
    if g = gid then x :: .group g b :: r else .group g b :: insertBeforeGroupNode x gid r

/-- `Groups.isAfterGroup`: the tab item's previous sibling is a group item.
Only a root-level tab can have a group item as its previous sibling; inside
a group body every previous sibling is a tab item. -/
def isAfterGroup (tid : Nat) : TabList → Bool
  | .group _ _ :: .tab t :: r => (t.id == tid) || isAfterGroup tid (.tab t :: r)
  | _ :: n :: r => isAfterGroup tid (n :: r)
  | _ => false

/-- Rendering well-formedness of one node: a group item has a non-zero id
(parseInt of its tag is truthy) and every tab in its body is tagged with it. -/
def nodeWFTags : DomNode → Bool
  | .tab _ => true
  | .group g b => (g != 0) && b.all (fun t => t.tag == g)

/-- Rendering well-formedness of the whole root list. -/
def wfTags (tr : TabList) : Bool := tr.all nodeWFTags

/-- One external chrome.* mutation issued by the drag-and-drop engine. -/
inductive ApiCall where
  | move (tabId : Nat) (index : Int)
  | ungroup (tabId : Nat)
  | ungroupMany (tabIds : List Nat)
  | groupWith (gid : Int) (tabId : Nat)
  | groupNew (tabIds : List Nat)
  | updateNewGroup (collapsed : Bool) (color : String) (title : String)
  | moveGroupTo (gid : Int) (index : Int)
  deriving DecidableEq

/-- A resolved drop target of `DnD.drop`: a tab item, a group container
(a header drop zone resolves to its parent group item), or the synthetic
end-of-list drop zone. -/
inductive DropRef where
  | tabAt (rid : Nat)
  | groupC (gid : Int)
  | fakeBottom
  deriving DecidableEq

/-- What a drop handler did: the ordered external calls it issued and
whether it finished by rebuilding from ground truth. -/
structure DropResult where
  calls : List ApiCall
  rebuild : Bool
  deriving DecidableEq

/-- The optimistic DOM move `dropTarget.before(tabElement)` performed by
`DnD.moveTab` before any external call. -/
def optimisticTabTree (tr : TabList) (x : TabNode) (ref : DropRef) : TabList :=
  match ref with
  | .tabAt r => insertBeforeTab x r (eraseTab x.id tr)
  | .groupC g => insertBeforeGroupNode (.tab x) g (eraseTab x.id tr)
  | .fakeBottom => eraseTab x.id tr ++ [.tab x]

/-- The `newIndex` of `DnD.moveTab`: the dragged tab's position in the
flat rendered order after the optimistic move. -/
def moveTabNewIndex (tr : TabList) (x : TabNode) (ref : DropRef) : Int :=
  idxOf x.id (flatIds (optimisticTabTree tr x ref))

/-- `DnD.moveTab`: decide grouping from the drop target, optimistically move
the DOM node, then issue `chrome.tabs.move` followed by the group/ungroup
call, and always finish with `Tabs.build()`. -/
def DnD.moveTab (tr : TabList) (x : TabNode) (ref : DropRef) : DropResult :=
  let isDropTargetGroup : Bool := match ref with | .groupC _ => true | _ => false
  let tr1 := optimisticTabTree tr x ref
  let targetGroupId : Option Int :=
    if isDropTargetGroup then none
    else match ref with
      | .tabAt r => if tabInGroupBody r tr1 then (findTabNode r tr1).map (·.tag) else none
      | _ => none
  let shouldUngroup : Bool :=
    if isDropTargetGroup then false
    else match ref with
      | .tabAt r => if tabInGroupBody r tr1 then false else isAfterGroup x.id tr1
      | _ => isAfterGroup x.id tr1
  { calls :=
      ApiCall.move x.id (moveTabNewIndex tr x ref) ::
        (if isDropTargetGroup || shouldUngroup then [ApiCall.ungroup x.id]
         else match targetGroupId with
           | some g => if g ≠ 0 then [ApiCall.groupWith g x.id] else []
           | none => []),
    rebuild := true }

/-- `dropTarget.before(groupElement)` throws (HierarchyRequestError) exactly
when the drop target is a descendant of the dragged group element; the
catch of `DnD.moveGroup` then rebuilds and returns. -/
def groupDropThrows (tr : TabList) (gid : Int) (ref : DropRef) : Bool :=
  match ref with
  | .tabAt r => ((groupBody gid tr).getD []).any (fun t => t.id == r)
  | _ => false

/-- The `oldIndex` of `DnD.moveGroup`: flat position of the dragged group's
first tab. -/
def groupOldIndex (tr : TabList) (gid : Int) : Int :=
  jsIndexOfOpt tr ((((groupBody gid tr).getD []).head?).map (·.id))

/-- The `newIndex` of `DnD.moveGroup`: flat position of the resolved target
tab (a group target contributes its own first tab; the synthetic bottom
zone contributes none). -/
def groupNewIndex (tr : TabList) (ref : DropRef) : Int :=
  jsIndexOfOpt tr
    (match ref with
     | .tabAt r => some r
     | .groupC g2 => (((groupBody g2 tr).getD []).head?).map (·.id)
     | .fakeBottom => none)

/-- `Groups.cache` lookup (`Groups.get` also falls back to the external API
on a miss, so the association list models the combined knowledge). -/
def lookupCache (cache : List (Int × GroupInfo)) (gid : Int) : Option GroupInfo :=
  (cache.find? (fun p => p.1 == gid)).map (·.2)

/-- `DnD.moveGroup`: moving to a strictly earlier flat position is one
`chrome.tabGroups.move`; moving to -1 or a strictly later position
ungroups the members, moves each to the target index, regroups them and
reapplies the cached color/title/collapsed to the fresh group id.  When
`Groups.get` returned null, evaluating `groupInfo.collapsed` throws before
`chrome.tabGroups.update` is invoked, so that call is absent.  Every path
finishes with `Tabs.build()`. -/
def DnD.moveGroup (tr : TabList) (cache : List (Int × GroupInfo)) (gid : Int)
    (ref : DropRef) : DropResult :=
  let members := (groupBody gid tr).getD []
  let oldIndex := groupOldIndex tr gid
  let newIndex := groupNewIndex tr ref
  if groupDropThrows tr gid ref then { calls := [], rebuild := true }
  else if newIndex = -1 ∨ oldIndex < newIndex then
    let targetIndex : Int := if newIndex = -1 then newIndex else newIndex - 1
    let tabIds := members.map (·.id)
    match lookupCache cache gid with
    | some info =>
      { calls := ApiCall.ungroupMany tabIds ::
          (tabIds.map (fun t => ApiCall.move t targetIndex)) ++
          [ApiCall.groupNew tabIds,
           ApiCall.updateNewGroup info.collapsed info.color info.title],
        rebuild := true }
    | none =>
      { calls := ApiCall.ungroupMany tabIds ::
          (tabIds.map (fun t => ApiCall.move t targetIndex)) ++
          [ApiCall.groupNew tabIds],
        rebuild := true }
  else if newIndex < oldIndex then
    { calls := [ApiCall.moveGroupTo gid newIndex], rebuild := true }
  else
    { calls := [], rebuild := true }

/-- The reconciler-facing panel state: the rendered root list, whether the
debounced rebuild timer is armed (`Tabs.delayTimeoutId`), and whether a
drag session is active (`DnD.dragging`). -/
structure PanelState where
  tree : TabList
  pending : Bool
  dragging : Bool
  deriving DecidableEq

/-- `Tabs.createTab` restricted to the structural fields of the element. -/
def createTabNode (tb : TabInfo) : TabNode :=
  { id := tb.id, tag := tb.groupId, act := tb.active, pin := tb.pinned }

/-- `appendChild` into a group item's body. -/
def pushTab (x : TabNode) : DomNode → DomNode
  | .group g b => .group g (b ++ [x])
  | n => n

/-- Replace the node at a root position. -/
def modifyAt (f : DomNode → DomNode) : Nat → TabList → TabList
  | _, [] => []
  | 0, n :: r => f n :: r
  | i + 1, n :: r => n :: modifyAt f i r

/-- The walk of `Tabs.build` over the window's tabs in order.  `cur` is the
id and root position of the most recently opened group (`lastGroupId` and
`currentGroupElement`); both start unset and are updated together.  A
Registry miss on a group transition aborts the whole walk (`none`). -/
def Tabs.buildLoop (lookup : Int → Option GroupInfo) :
    List TabInfo → Option (Int × Nat) → TabList → Option TabList
  | [], _, acc => some acc
  | tb :: rest, cur, acc =>
    if tb.groupId ≠ NoGroup then
      match cur with
      | some (g, p) =>
        if g = tb.groupId then
          Tabs.buildLoop lookup rest (some (g, p)) (modifyAt (pushTab (createTabNode tb)) p acc)
        else
          match lookup tb.groupId with
          | some _ =>
            Tabs.buildLoop lookup rest (some (tb.groupId, acc.length))
              (modifyAt (pushTab (createTabNode tb)) acc.length (acc ++ [DomNode.group tb.groupId []]))
          | none => none
      | none =>
        match lookup tb.groupId with
        | some _ =>
          Tabs.buildLoop lookup rest (some (tb.groupId, acc.length))
            (modifyAt (pushTab (createTabNode tb)) acc.length (acc ++ [DomNode.group tb.groupId []]))
        | none => none
    else
      Tabs.buildLoop lookup rest cur (acc ++ [DomNode.tab (createTabNode tb)])

/-- `Tabs.build`: a no-op while dragging; a Registry miss schedules a
debounced rebuild and leaves the old root list untouched; success replaces
the root list atomically (`replaceWith`). -/
def Tabs.build (lookup : Int → Option GroupInfo) (tabs : List TabInfo)
    (s : PanelState) : PanelState :=
  if s.dragging then s
  else
    match Tabs.buildLoop lookup tabs none [] with
    | some t => { s with tree := t }
    | none => { s with pending := true }

/-- `Tabs.delayRebuild` arms (or re-arms) the 400 ms debounce timer. -/
def Tabs.delayRebuild (s : PanelState) : PanelState := { s with pending := true }

/-- The armed debounce timer firing: the timeout is consumed, then
`Tabs.build` runs. -/
def fireRebuildTimer (lookup : Int → Option GroupInfo) (tabs : List TabInfo)
    (s : PanelState) : PanelState :=
  Tabs.build lookup tabs { s with pending := false }

/-- `clearTimeout`/`setTimeout` semantics of `Tabs.delayRebuild` on a
single-threaded timeline.  Walk the time-ordered rebuild requests carrying
the pending fire time: a timer whose fire time has already passed ran
(recorded), otherwise the request cancels it; each request re-arms the
timer 400 ms out.  Returns the times at which `Tabs.build` runs. -/
def debounceRun : List Nat → Option Nat → List Nat
  | [], pending => match pending with | some f => [f] | none => []
  | t :: ts, pending =>
    match pending with
    | some f =>
      if f ≤ t then f :: debounceRun ts (some (t + 400))
      else debounceRun ts (some (t + 400))
    | none => debounceRun ts (some (t + 400))

/-- The `Tabs.build` execution times produced by a sequence of
`Tabs.delayRebuild` requests starting with no timer armed. -/
def rebuildTimes (requests : List Nat) : List Nat := debounceRun requests none

/-- Where `Tabs.insertTab` put the new tab element. -/
inductive InsertAction where
  | appendEnd
  | beforeTab (rid : Nat)
  | beforeGroup (gid : Int)
  | afterTab (rid : Nat)
  deriving DecidableEq

/-- Outcome of `Tabs.insertTab`: the insertion performed, or none plus a
scheduled debounced rebuild. -/
structure InsertResult where
  action : Option InsertAction
  rebuild : Bool
  deriving DecidableEq

/-- `Tabs.insertTab`: position policy for a single newly observed tab. -/
def Tabs.insertTab (tr : TabList) (tb : TabInfo) : InsertResult :=
  if tb.groupId = NoGroup then
    if tb.index = (flatTabs tr).length then { action := some .appendEnd, rebuild := false }
    else if h : tb.index < (flatTabs tr).length then
      let ref := (flatTabs tr).get ⟨tb.index, h⟩
      if isRootTab ref.id tr then { action := some (.beforeTab ref.id), rebuild := false }
      else
        match enclosingGroupOf ref.id tr with
        | some g => { action := some (.beforeGroup g), rebuild := false }
        | none => { action := none, rebuild := true }
    else { action := none, rebuild := true }
  else
    if (groupBody tb.groupId tr).isSome then
      match (if tb.index = 0 then none else (flatTabs tr)[tb.index - 1]?) with
      | some prev =>
        if prev.tag = tb.groupId then { action := some (.afterTab prev.id), rebuild := false }
        else { action := none, rebuild := true }
      | none => { action := none, rebuild := true }
    else { action := none, rebuild := true }

/-- The `changeInfo` fields of `chrome.tabs.onUpdated` the handler reads. -/
structure ChangeInfo where
  titleChanged : Bool
  urlChanged : Bool
  favChanged : Bool
  pinned : Option Bool
  audioChanged : Bool
  groupId : Option Int
  deriving DecidableEq

/-- Patch the rendered tab node with the given id, wherever it is. -/
def mapTabNode (f : TabNode → TabNode) (tid : Nat) (tr : TabList) : TabList :=
  tr.map fun n =>
    match n with
    | .tab t => .tab (if t.id = tid then f t else t)
    | .group g b => .group g (b.map fun t => if t.id = tid then f t else t)

/-- `Tabs.onUpdated`: ignore other windows; a missing DOM node schedules a
debounced rebuild; otherwise patch in place (title/favicon/audio patches
touch text and icon attributes outside the structural state; a pinned
change toggles the pin marker; a groupId change retags the node and always
schedules a debounced rebuild via `Tabs.updateGroup`). -/
def Tabs.onUpdated (wid : Nat) (tabId : Nat) (ch : ChangeInfo) (tb : TabInfo)
    (s : PanelState) : PanelState :=
  if tb.windowId ≠ wid then s
  else if (findTabNode tabId s.tree).isNone then { s with pending := true }
  else
    let s1 :=
      if ch.pinned.isSome then
        { s with tree := mapTabNode (fun t => { t with pin := tb.pinned }) tabId s.tree }
      else s
    match ch.groupId with
    | some g =>
      { s1 with
        tree := mapTabNode (fun t => { t with tag := g }) tabId s1.tree
        pending := true }
    | none => s1

/-- Remove the `tab-active` class from every rendered tab node. -/
def clearActive (tr : TabList) : TabList :=
  tr.map fun n =>
    match n with
    | .tab t => .tab { t with act := false }
    | .group g b => .group g (b.map fun t => { t with act := false })

/-- `Tabs.onActivated`: in the current window, clear all active markers,
then mark and scroll the activated node only if it is still rendered. -/
def Tabs.onActivated (wid : Nat) (evWindowId : Nat) (evTabId : Nat)
    (s : PanelState) : PanelState :=
  if evWindowId = wid then
    let t1 := clearActive s.tree
    if (findTabNode evTabId t1).isSome then
      { s with tree := mapTabNode (fun t => { t with act := true }) evTabId t1 }
    else { s with tree := t1 }
  else s

/-- The DOM unwrap of `Groups.onRemoved`: move the group's tab items out to
the root list at the group's position, then remove the group item. -/
def unwrapGroup (gid : Int) : TabList → TabList
  | [] => []
  | .tab t :: r => .tab t :: unwrapGroup gid r
  | .group g b :: r =>
    if g = gid then (b.map DomNode.tab) ++ r else .group g b :: unwrapGroup gid r

/-- The state touched by the Group Registry handlers. -/
structure RegistryState where
  cache : List (Int × GroupInfo)
  tree : TabList
  pending : Bool
  deriving DecidableEq

/-- `Groups.onRemoved`: drop the cache entry, unwrap the rendered group item
if present; no rebuild is scheduled. -/
def Groups.onRemoved (gid : Int) (s : RegistryState) : RegistryState :=
  { s with cache := s.cache.filter (fun p => p.1 != gid), tree := unwrapGroup gid s.tree }

/-- How a bulk close proceeds: immediately, or through the confirm dialog. -/
inductive CloseRoute where
  | removeNow (ids : List Nat)
  | confirm (ids : List Nat)
  deriving DecidableEq

/-- `ContextMenu.showCloseConfirm`: more than 10 ids routes to the dialog. -/
def ContextMenu.showCloseConfirm (ids : List Nat) : CloseRoute :=
  if 10 < ids.length then .confirm ids else .removeNow ids

/-- `ContextMenu.closeOthers` on the live `chrome.tabs.query` result. -/
def ContextMenu.closeOthers (tabs : List TabInfo) (tabId : Nat) : CloseRoute :=
  ContextMenu.showCloseConfirm
    ((tabs.filter (fun tb => tb.id != tabId && !tb.pinned)).map (·.id))

/-- `ContextMenu.closeLeft` on the live `chrome.tabs.query` result. -/
def ContextMenu.closeLeft (tabs : List TabInfo) (tabId : Nat) : Option CloseRoute :=
  match tabs.find? (fun tb => tb.id == tabId) with
  | none => none
  | some sel =>
    some (ContextMenu.showCloseConfirm
      ((tabs.filter (fun tb => decide (tb.index < sel.index) && !tb.pinned)).map (·.id)))

/-- `ContextMenu.closeRight` on the live `chrome.tabs.query` result. -/
def ContextMenu.closeRight (tabs : List TabInfo) (tabId : Nat) : Option CloseRoute :=
  match tabs.find? (fun tb => tb.id == tabId) with
  | none => none
  | some sel =>
    some (ContextMenu.showCloseConfirm
      ((tabs.filter (fun tb => decide (sel.index < tb.index) && !tb.pinned)).map (·.id)))

/-- `ContextMenu.closeGroupAbove` on the live `chrome.tabs.query` result. -/
def ContextMenu.closeGroupAbove (tabs : List TabInfo) (tabId : Nat) (gid : Int) :
    Option CloseRoute :=
  if gid = NoGroup then none
  else
    match tabs.find? (fun tb => tb.id == tabId) with
    | none => none
    | some sel =>
      some (ContextMenu.showCloseConfirm
        ((tabs.filter (fun tb =>
          tb.groupId == gid && decide (tb.index < sel.index) && !tb.pinned)).map (·.id)))

/-- `ContextMenu.closeGroupBelow` on the live `chrome.tabs.query` result. -/
def ContextMenu.closeGroupBelow (tabs : List TabInfo) (tabId : Nat) (gid : Int) :
    Option CloseRoute :=
  if gid = NoGroup then none
  else
    match tabs.find? (fun tb => tb.id == tabId) with
    | none => none
    | some sel =>
      some (ContextMenu.showCloseConfirm
        ((tabs.filter (fun tb =>
          tb.groupId == gid && decide (sel.index < tb.index) && !tb.pinned)).map (·.id)))

/-- Visual drag state of one rendered tab item. -/
structure TVis where
  id : Nat
  zone : Bool
  over : Bool
  deriving DecidableEq

/-- Visual drag state of one rendered group item: the `collapse` class, the
`dataset.collapse` marker and the header's drop-zone / drag-over classes. -/
structure GVis where
  gid : Int
  collapsed : Bool
  marker : Bool
  zone : Bool
  over : Bool
  deriving DecidableEq

/-- The visual state a group-drag session manipulates. -/
structure DragVis where
  dragging : Bool
  fakeBottom : Bool
  tabs : List TVis
  groups : List GVis
  deriving DecidableEq

/-- `DnD.groupDragStart`: mark the session active, make every tab and group
header a drop zone, remember which groups were already collapsed via the
`dataset.collapse` marker, collapse all groups, and append the synthetic
end-of-list drop zone. -/
def DnD.groupDragStart (v : DragVis) : DragVis :=
  { dragging := true
    fakeBottom := true
    tabs := v.tabs.map (fun t => { t with zone := true })
    groups := v.groups.map (fun g =>
      { g with
        zone := true
        marker := (if g.collapsed then true else g.marker)
        collapsed := true }) }

/-- `DnD.groupDragEnd` (fires on success and failure alike): clear the
session flag, strip drop-zone and drag-over markers, restore each group's
collapse state from its marker, and remove the synthetic drop zone. -/
def DnD.groupDragEnd (v : DragVis) : DragVis :=
  { dragging := false
    fakeBottom := false
    tabs := v.tabs.map (fun t => { t with zone := false, over := false })
    groups := v.groups.map (fun g =>
      if g.marker then { g with zone := false, over := false, marker := false }
      else { g with zone := false, over := false, collapsed := false }) }

/-! ## Supporting lemmas -/

theorem debounceRun_chain (t : Nat) (ts : List Nat)
    (h : List.Chain' (fun a b => a ≤ b ∧ b < a + 400) (t :: ts)) :
    debounceRun ts (some (t + 400)) = [ts.getLastD t + 400] := by
  induction ts generalizing t with
  | nil => simp [debounceRun]
  | cons u us ih =>
    have h1 : t ≤ u ∧ u < t + 400 := (List.chain'_cons.mp h).1
    have h2 : List.Chain' (fun a b => a ≤ b ∧ b < a + 400) (u :: us) :=
      (List.chain'_cons.mp h).2
    have hlt : ¬ (t + 400 ≤ u) := by omega
    have hstep : debounceRun (u :: us) (some (t + 400)) = debounceRun us (some (u + 400)) := by
      simp [debounceRun, hlt]
    rw [hstep, ih u h2, List.getLastD_cons]

theorem unwrapGroup_append (gid : Int) (pre post : TabList) (b : List TabNode)
    (hpre : gid ∉ rootGroupIds pre) :
    unwrapGroup gid (pre ++ DomNode.group gid b :: post)
      = pre ++ (b.map DomNode.tab) ++ post := by
  induction pre with
  | nil => simp [unwrapGroup]
  | cons n r ih =>
    cases n with
    | tab t =>
      simp only [rootGroupIds] at hpre
      simp [unwrapGroup, ih hpre]
    | group g bb =>
      simp only [rootGroupIds, List.mem_cons] at hpre
      push_neg at hpre
      have hne : g ≠ gid := fun e => hpre.1 e.symm
      simp [unwrapGroup, hne, ih hpre.2]

theorem findTabNode_clearActive (rid : Nat) (tr : TabList) :
    (findTabNode rid (clearActive tr)).isSome = (findTabNode rid tr).isSome := by
  induction tr with
  | nil => rfl
  | cons n r ih =>
    cases n with
    | tab t =>
      by_cases h : t.id = rid
      · simp [clearActive, findTabNode, h]
      · simp only [clearActive, List.map_cons, findTabNode, h, if_false, if_neg h]
        simpa [clearActive] using ih
    | group g b =>
      simp only [clearActive, List.map_cons, findTabNode, List.find?_map]
      have hpred : ((fun t : TabNode => t.id == rid) ∘ fun t : TabNode => { t with act := false })
          = fun t : TabNode => t.id == rid := rfl
      rw [hpred]
      cases hb : b.find? (fun t : TabNode => t.id == rid) with
      | none => simpa [clearActive] using ih
      | some t => simp

/-! ## Claims -/

/-- C4: N rebuild requests arriving within the 400 ms debounce quiet-period
of one another produce exactly one `Tabs.build` run, 400 ms after the last
request: each request cancels the pending timer and re-arms it. -/
theorem C4_debounce_coalescing (r : Nat) (rs : List Nat)
    (hchain : List.Chain' (fun a b => a ≤ b ∧ b < a + 400) (r :: rs)) :
    rebuildTimes (r :: rs) = [rs.getLastD r + 400] := by
  simpa [rebuildTimes, debounceRun] using debounceRun_chain r rs hchain

/-- Witness for C4 at a concrete three-request burst. -/
theorem C4_witness : rebuildTimes [0, 100, 350] = [750] :=
  C4_debounce_coalescing 0 [100, 350] (by simp [List.chain'_cons])

/-- C7: on a group-removed notification whose group is rendered, the handler
deletes the cache entry, re-parents the member tab nodes to the root list at
the group's former position in order, removes the group node, and schedules
no rebuild; every other node is unchanged. -/
theorem C7_group_removed_unwrap (gid : Int) (s : RegistryState)
    (pre post : TabList) (b : List TabNode)
    (htree : s.tree = pre ++ DomNode.group gid b :: post)
    (hpre : gid ∉ rootGroupIds pre) :
    Groups.onRemoved gid s =
      { cache := s.cache.filter (fun p => p.1 != gid)
        tree := pre ++ (b.map DomNode.tab) ++ post
        pending := s.pending } := by
  simp [Groups.onRemoved, htree, unwrapGroup_append gid pre post b hpre]

/-- Witness for C7 at a concrete tree. -/
theorem C7_witness :
    Groups.onRemoved 4
      { cache := [(4, ⟨"w", "blue", false⟩), (5, ⟨"x", "red", true⟩)]
        tree := [DomNode.tab ⟨1, -1, false, false⟩,
                 DomNode.group 4 [⟨2, 4, true, false⟩, ⟨3, 4, false, false⟩],
                 DomNode.tab ⟨9, -1, false, false⟩]
        pending := false }
      = { cache := [(5, ⟨"x", "red", true⟩)]
          tree := [DomNode.tab ⟨1, -1, false, false⟩,
                   DomNode.tab ⟨2, 4, true, false⟩, DomNode.tab ⟨3, 4, false, false⟩,
                   DomNode.tab ⟨9, -1, false, false⟩]
          pending := false } :=
  C7_group_removed_unwrap 4 _ [DomNode.tab ⟨1, -1, false, false⟩]
    [DomNode.tab ⟨9, -1, false, false⟩] [⟨2, 4, true, false⟩, ⟨3, 4, false, false⟩]
    rfl (by decide)

/-- C10: if the debounced rebuild timer fires while a drag session is
active, the build returns without touching the rendered tree and without
re-arming the timer, so the pending rebuild request is lost. -/
theorem C10_rebuild_lost_while_dragging (lookup : Int → Option GroupInfo)
    (tabs : List TabInfo) (s : PanelState) (hd : s.dragging = true) :
    fireRebuildTimer lookup tabs s = { s with pending := false } := by
  simp [fireRebuildTimer, Tabs.build, hd]

/-- Witness for C10 at a concrete dragging state. -/
theorem C10_witness :
    fireRebuildTimer (fun _ => none) [⟨1, 0, 0, -1, false, false⟩]
        { tree := [DomNode.tab ⟨7, -1, false, false⟩], pending := true, dragging := true }
      = { tree := [DomNode.tab ⟨7, -1, false, false⟩], pending := false, dragging := true } :=
  C10_rebuild_lost_while_dragging (fun _ => none) [⟨1, 0, 0, -1, false, false⟩] _ rfl

/-- C6 (amended): a tab-updated event for the current window whose rendered
node is gone schedules a debounced rebuild; a tab-activated event for the
current window whose rendered node is gone merely clears the previous
active marker and schedules nothing. -/
theorem C6_missing_node_handling (wid tabId : Nat) (ch : ChangeInfo) (tb : TabInfo)
    (evW evT : Nat) (s : PanelState) :
    (tb.windowId = wid → findTabNode tabId s.tree = none →
       Tabs.onUpdated wid tabId ch tb s = { s with pending := true }) ∧
    (evW = wid → findTabNode evT s.tree = none →
       Tabs.onActivated wid evW evT s = { s with tree := clearActive s.tree }) := by
  constructor
  · intro h1 h2
    simp [Tabs.onUpdated, h1, h2]
  · intro h1 h2
    have hcl : (findTabNode evT (clearActive s.tree)).isSome = false := by
      rw [findTabNode_clearActive, h2]; rfl
    simp [Tabs.onActivated, h1, hcl]

/-- Witness for C6 at a concrete state with a missing node. -/
theorem C6_witness :
    Tabs.onUpdated 1 9 ⟨false, false, false, none, false, none⟩ ⟨9, 1, 0, -1, false, false⟩
        { tree := [DomNode.tab ⟨1, -1, true, false⟩], pending := false, dragging := false }
      = { tree := [DomNode.tab ⟨1, -1, true, false⟩], pending := true, dragging := false } :=
  (C6_missing_node_handling 1 9 ⟨false, false, false, none, false, none⟩
    ⟨9, 1, 0, -1, false, false⟩ 1 9 _).1 rfl (by decide)

/-- Counterexample to C6 as stated: a tab-activated event for the current
window referencing a tab with no rendered node does not schedule a rebuild;
the handler only clears the previous active marker. -/
theorem C6_counterexample :
    findTabNode 9 [DomNode.tab ⟨1, -1, true, false⟩] = none ∧
    Tabs.onActivated 1 1 9
        { tree := [DomNode.tab ⟨1, -1, true, false⟩], pending := false, dragging := false }
      = { tree := [DomNode.tab ⟨1, -1, false, false⟩], pending := false, dragging := false } ∧
    (Tabs.onActivated 1 1 9
        { tree := [DomNode.tab ⟨1, -1, true, false⟩], pending := false, dragging := false }).pending
      ≠ true := by decide

/-- C9: a group-drag session records exactly the already-collapsed groups,
collapses all groups, and its end (success or failure) clears the session
flag, strips all drop-zone / drag-over markers, removes the synthetic
bottom zone and restores every group's collapsed state, so start followed
by end is the identity on every group's collapsed state. -/
theorem C9_group_drag_round_trip (v : DragVis)
    (hm : ∀ g ∈ v.groups, g.marker = false) :
    (DnD.groupDragStart v).dragging = true ∧
    (DnD.groupDragStart v).fakeBottom = true ∧
    (DnD.groupDragStart v).groups
      = v.groups.map (fun g => { g with zone := true, marker := g.collapsed, collapsed := true }) ∧
    DnD.groupDragEnd (DnD.groupDragStart v)
      = { dragging := false, fakeBottom := false
          tabs := v.tabs.map (fun t => { t with zone := false, over := false })
          groups := v.groups.map (fun g => { g with zone := false, over := false }) } ∧
    ((DnD.groupDragEnd (DnD.groupDragStart v)).groups.map (·.collapsed))
      = v.groups.map (·.collapsed) := by
  have hstart : (DnD.groupDragStart v).groups
      = v.groups.map (fun g => { g with zone := true, marker := g.collapsed, collapsed := true }) := by
    simp only [DnD.groupDragStart]
    refine List.map_congr_left ?_
    intro g hg
    rw [hm g hg]
    cases g.collapsed <;> rfl
  have hend : DnD.groupDragEnd (DnD.groupDragStart v)
      = { dragging := false, fakeBottom := false
          tabs := v.tabs.map (fun t => { t with zone := false, over := false })
          groups := v.groups.map (fun g => { g with zone := false, over := false }) } := by
    simp only [DnD.groupDragEnd, hstart, DnD.groupDragStart, List.map_map, DragVis.mk.injEq,
      true_and]
    refine ⟨List.map_congr_left (fun t _ => rfl), List.map_congr_left ?_⟩
    intro g hg
    have hmg := hm g hg
    cases hcol : g.collapsed <;> simp [Function.comp, hcol, hmg]
  refine ⟨rfl, rfl, hstart, hend, ?_⟩
  rw [hend]
  simp [List.map_map]

/-- Witness for C9 at a concrete visual state. -/
theorem C9_witness :
    DnD.groupDragEnd (DnD.groupDragStart
        { dragging := false, fakeBottom := false
          tabs := [⟨1, false, true⟩]
          groups := [⟨4, true, false, false, true⟩, ⟨5, false, false, true, false⟩] })
      = { dragging := false, fakeBottom := false
          tabs := [⟨1, false, false⟩]
          groups := [⟨4, true, false, false, false⟩, ⟨5, false, false, false, false⟩] } :=
  ((C9_group_drag_round_trip
      { dragging := false, fakeBottom := false
        tabs := [⟨1, false, true⟩]
        groups := [⟨4, true, false, false, true⟩, ⟨5, false, false, true, false⟩] }
      (by decide)).2.2.2).1

/-- C8: every bulk close is a filter over the live window query; each
computed set contains only unpinned tabs meeting the operation's position
or group predicate; a set of at most 10 closes immediately and a larger one
routes through the confirm dialog. -/
theorem C8_bulk_close (tabs : List TabInfo) (tabId : Nat) (gid : Int) (sel : TabInfo)
    (hsel : tabs.find? (fun tb => tb.id == tabId) = some sel)
    (hg : gid ≠ NoGroup) :
    (∀ ids : List Nat, ids.length ≤ 10 →
       ContextMenu.showCloseConfirm ids = CloseRoute.removeNow ids) ∧
    (∀ ids : List Nat, 10 < ids.length →
       ContextMenu.showCloseConfirm ids = CloseRoute.confirm ids) ∧
    ContextMenu.closeOthers tabs tabId
      = ContextMenu.showCloseConfirm
          ((tabs.filter (fun tb => tb.id != tabId && !tb.pinned)).map (·.id)) ∧
    (∀ tb ∈ tabs.filter (fun tb => tb.id != tabId && !tb.pinned),
       tb.pinned = false ∧ tb.id ≠ tabId) ∧
    ContextMenu.closeLeft tabs tabId
      = some (ContextMenu.showCloseConfirm
          ((tabs.filter (fun tb => decide (tb.index < sel.index) && !tb.pinned)).map (·.id))) ∧
    (∀ tb ∈ tabs.filter (fun tb => decide (tb.index < sel.index) && !tb.pinned),
       tb.pinned = false ∧ tb.index < sel.index) ∧
    ContextMenu.closeRight tabs tabId
      = some (ContextMenu.showCloseConfirm
          ((tabs.filter (fun tb => decide (sel.index < tb.index) && !tb.pinned)).map (·.id))) ∧
    (∀ tb ∈ tabs.filter (fun tb => decide (sel.index < tb.index) && !tb.pinned),
       tb.pinned = false ∧ sel.index < tb.index) ∧
    ContextMenu.closeGroupAbove tabs tabId gid
      = some (ContextMenu.showCloseConfirm
          ((tabs.filter (fun tb =>
            tb.groupId == gid && decide (tb.index < sel.index) && !tb.pinned)).map (·.id))) ∧
    (∀ tb ∈ tabs.filter (fun tb =>
        tb.groupId == gid && decide (tb.index < sel.index) && !tb.pinned),
       tb.pinned = false ∧ tb.groupId = gid ∧ tb.index < sel.index) ∧
    ContextMenu.closeGroupBelow tabs tabId gid
      = some (ContextMenu.showCloseConfirm
          ((tabs.filter (fun tb =>
            tb.groupId == gid && decide (sel.index < tb.index) && !tb.pinned)).map (·.id))) ∧
    (∀ tb ∈ tabs.filter (fun tb =>
        tb.groupId == gid && decide (sel.index < tb.index) && !tb.pinned),
       tb.pinned = false ∧ tb.groupId = gid ∧ sel.index < tb.index) := by
  refine ⟨?_, ?_, ?_, ?_, ?_, ?_, ?_, ?_, ?_, ?_, ?_, ?_⟩
  · intro ids h
    simp [ContextMenu.showCloseConfirm, Nat.not_lt.mpr h]
  · intro ids h
    simp [ContextMenu.showCloseConfirm, h]
  · rfl
  · intro tb htb
    simp only [List.mem_filter, Bool.and_eq_true, bne_iff_ne, Bool.not_eq_true'] at htb
    exact ⟨htb.2.2, htb.2.1⟩
  · simp [ContextMenu.closeLeft, hsel]
  · intro tb htb
    simp only [List.mem_filter, Bool.and_eq_true, decide_eq_true_eq, Bool.not_eq_true'] at htb
    exact ⟨htb.2.2, htb.2.1⟩
  · simp [ContextMenu.closeRight, hsel]
  · intro tb htb
    simp only [List.mem_filter, Bool.and_eq_true, decide_eq_true_eq, Bool.not_eq_true'] at htb
    exact ⟨htb.2.2, htb.2.1⟩
  · simp [ContextMenu.closeGroupAbove, hg, hsel]
  · intro tb htb
    simp only [List.mem_filter, Bool.and_eq_true, decide_eq_true_eq, Bool.not_eq_true',
      beq_iff_eq] at htb
    exact ⟨htb.2.2, htb.2.1.1, htb.2.1.2⟩
  · simp [ContextMenu.closeGroupBelow, hg, hsel]
  · intro tb htb
    simp only [List.mem_filter, Bool.and_eq_true, decide_eq_true_eq, Bool.not_eq_true',
      beq_iff_eq] at htb
    exact ⟨htb.2.2, htb.2.1.1, htb.2.1.2⟩

/-- Witness for C8 at a concrete live tab list. -/
theorem C8_witness :
    ContextMenu.closeLeft
        [⟨1, 0, 0, -1, true, false⟩, ⟨2, 0, 1, 4, false, false⟩, ⟨3, 0, 2, 4, false, true⟩]
        3
      = some (CloseRoute.removeNow [2]) :=
  ((C8_bulk_close
      [⟨1, 0, 0, -1, true, false⟩, ⟨2, 0, 1, 4, false, false⟩, ⟨3, 0, 2, 4, false, true⟩]
      3 4 ⟨3, 0, 2, 4, false, true⟩ (by decide) (by decide)).2.2.2.2.1)

theorem buildLoop_none_iff (lookup : Int → Option GroupInfo) (tabs : List TabInfo) :
    ∀ (cur : Option (Int × Nat)) (acc : TabList),
      (∀ g p, cur = some (g, p) → (lookup g).isSome) →
      (Tabs.buildLoop lookup tabs cur acc = none ↔
        ∃ tb ∈ tabs, tb.groupId ≠ NoGroup ∧ lookup tb.groupId = none) := by
  induction tabs with
  | nil =>
    intro cur acc hcur
    simp [Tabs.buildLoop]
  | cons tb rest ih =>
    intro cur acc hcur
    by_cases hgi : tb.groupId ≠ NoGroup
    · cases cur with
      | none =>
        cases hl : lookup tb.groupId with
        | none =>
          simp only [Tabs.buildLoop, if_pos hgi, hl]
          exact ⟨fun _ => ⟨tb, List.mem_cons_self tb rest, hgi, hl⟩, fun _ => trivial⟩
        | some info =>
          simp only [Tabs.buildLoop, if_pos hgi, hl]
          rw [ih (some (tb.groupId, acc.length)) _
            (by intro g p h; cases h; simp [hl])]
          constructor
          · rintro ⟨u, hu, hgu, hlu⟩
            exact ⟨u, List.mem_cons_of_mem tb hu, hgu, hlu⟩
          · rintro ⟨u, hu, hgu, hlu⟩
            rcases List.mem_cons.mp hu with hEq | hmem
            · subst hEq; rw [hl] at hlu; cases hlu
            · exact ⟨u, hmem, hgu, hlu⟩
      | some gp =>
        obtain ⟨g, p⟩ := gp
        by_cases hsame : g = tb.groupId
        · have hl : (lookup tb.groupId).isSome := hsame ▸ hcur g p rfl
          simp only [Tabs.buildLoop, if_pos hgi, if_pos hsame]
          rw [ih (some (g, p)) _ hcur]
          constructor
          · rintro ⟨u, hu, hgu, hlu⟩
            exact ⟨u, List.mem_cons_of_mem tb hu, hgu, hlu⟩
          · rintro ⟨u, hu, hgu, hlu⟩
            rcases List.mem_cons.mp hu with hEq | hmem
            · subst hEq; rw [hlu] at hl; cases hl
            · exact ⟨u, hmem, hgu, hlu⟩
        · cases hl : lookup tb.groupId with
          | none =>
            simp only [Tabs.buildLoop, if_pos hgi, if_neg hsame, hl]
            exact ⟨fun _ => ⟨tb, List.mem_cons_self tb rest, hgi, hl⟩, fun _ => trivial⟩
          | some info =>
            simp only [Tabs.buildLoop, if_pos hgi, if_neg hsame, hl]
            rw [ih (some (tb.groupId, acc.length)) _
              (by intro g2 p2 h; cases h; simp [hl])]
            constructor
            · rintro ⟨u, hu, hgu, hlu⟩
              exact ⟨u, List.mem_cons_of_mem tb hu, hgu, hlu⟩
            · rintro ⟨u, hu, hgu, hlu⟩
              rcases List.mem_cons.mp hu with hEq | hmem
              · subst hEq; rw [hl] at hlu; cases hlu
              · exact ⟨u, hmem, hgu, hlu⟩
    · push_neg at hgi
      simp only [Tabs.buildLoop, hgi, if_neg (by simp : ¬ (NoGroup ≠ NoGroup))]
      rw [ih cur _ hcur]
      constructor
      · rintro ⟨u, hu, hgu, hlu⟩
        exact ⟨u, List.mem_cons_of_mem tb hu, hgu, hlu⟩
      · rintro ⟨u, hu, hgu, hlu⟩
        rcases List.mem_cons.mp hu with hEq | hmem
        · subst hEq; rw [hgi] at hgu; exact absurd rfl hgu
        · exact ⟨u, hmem, hgu, hlu⟩

/-- C3: while not dragging, a Group Registry miss for any referenced group
makes `Tabs.build` abort before touching the root list — the old tree is
kept unchanged and a debounced rebuild is scheduled — and when every
referenced group resolves, the old root list is atomically replaced by the
newly built one. -/
theorem C3_build_abort_or_replace (lookup : Int → Option GroupInfo)
    (tabs : List TabInfo) (s : PanelState) (hd : s.dragging = false) :
    ((∃ tb ∈ tabs, tb.groupId ≠ NoGroup ∧ lookup tb.groupId = none) →
       Tabs.build lookup tabs s = { s with pending := true }) ∧
    ((∀ tb ∈ tabs, tb.groupId ≠ NoGroup → (lookup tb.groupId).isSome) →
       ∃ t, Tabs.buildLoop lookup tabs none [] = some t ∧
         Tabs.build lookup tabs s = { s with tree := t }) := by
  have hiff := buildLoop_none_iff lookup tabs none [] (by intro g p h; cases h)
  constructor
  · intro hex
    have habort : Tabs.buildLoop lookup tabs none [] = none := hiff.mpr hex
    simp [Tabs.build, hd, habort]
  · intro hall
    have hne : Tabs.buildLoop lookup tabs none [] ≠ none := by
      rw [Ne, hiff]
      rintro ⟨u, hu, hgu, hlu⟩
      have := hall u hu hgu
      rw [hlu] at this
      cases this
    cases ht : Tabs.buildLoop lookup tabs none [] with
    | none => exact absurd ht hne
    | some t => exact ⟨t, rfl, by simp [Tabs.build, hd, ht]⟩

/-- Witness for C3: a missing group aborts a concrete build, keeping the
old tree; with the registry entry present the same build replaces it. -/
theorem C3_witness :
    Tabs.build (fun _ => none) [⟨2, 0, 1, 4, false, false⟩]
        { tree := [DomNode.tab ⟨7, -1, false, false⟩], pending := false, dragging := false }
      = { tree := [DomNode.tab ⟨7, -1, false, false⟩], pending := true, dragging := false } :=
  (C3_build_abort_or_replace (fun _ => none) [⟨2, 0, 1, 4, false, false⟩]
      { tree := [DomNode.tab ⟨7, -1, false, false⟩], pending := false, dragging := false }
      rfl).1 ⟨⟨2, 0, 1, 4, false, false⟩, by decide, by decide, rfl⟩

/-- C5: `Tabs.insertTab` position policy — append an ungrouped tab whose
index equals the flat count; insert an ungrouped tab before the rendered
tab at its flat index, or before that tab's enclosing group; insert a
grouped tab after the tab at index - 1 only when that neighbor carries the
same group tag; every other case inserts nothing and schedules a debounced
rebuild. -/
theorem C5_insert_policy (tr : TabList) (tb : TabInfo) :
    (tb.groupId = NoGroup → tb.index = (flatTabs tr).length →
       Tabs.insertTab tr tb = { action := some InsertAction.appendEnd, rebuild := false }) ∧
    (∀ h : tb.index < (flatTabs tr).length, tb.groupId = NoGroup →
       (isRootTab ((flatTabs tr).get ⟨tb.index, h⟩).id tr = true →
          Tabs.insertTab tr tb
            = { action := some (InsertAction.beforeTab ((flatTabs tr).get ⟨tb.index, h⟩).id),
                rebuild := false }) ∧
       (∀ g, isRootTab ((flatTabs tr).get ⟨tb.index, h⟩).id tr = false →
          enclosingGroupOf ((flatTabs tr).get ⟨tb.index, h⟩).id tr = some g →
          Tabs.insertTab tr tb
            = { action := some (InsertAction.beforeGroup g), rebuild := false })) ∧
    (tb.groupId ≠ NoGroup → (groupBody tb.groupId tr).isSome = true → tb.index ≠ 0 →
       ∀ prev, (flatTabs tr)[tb.index - 1]? = some prev → prev.tag = tb.groupId →
         Tabs.insertTab tr tb
           = { action := some (InsertAction.afterTab prev.id), rebuild := false }) ∧
    (tb.groupId ≠ NoGroup → ∀ a, (Tabs.insertTab tr tb).action = some a →
       ∃ prev, (flatTabs tr)[tb.index - 1]? = some prev ∧ tb.index ≠ 0 ∧
         prev.tag = tb.groupId ∧ a = InsertAction.afterTab prev.id) ∧
    (tb.groupId = NoGroup → (flatTabs tr).length < tb.index →
       Tabs.insertTab tr tb = { action := none, rebuild := true }) ∧
    ((Tabs.insertTab tr tb).action = none → (Tabs.insertTab tr tb).rebuild = true) := by
  refine ⟨?_, ?_, ?_, ?_, ?_, ?_⟩
  · intro hng hlen
    simp [Tabs.insertTab, hng, hlen]
  · intro h hng
    have hne : tb.index ≠ (flatTabs tr).length := Nat.ne_of_lt h
    constructor
    · intro hroot
      rw [List.get_eq_getElem] at hroot
      simp [Tabs.insertTab, hng, hne, h, hroot]
    · intro g hroot hencl
      rw [List.get_eq_getElem] at hroot hencl
      simp [Tabs.insertTab, hng, hne, h, hroot, hencl]
  · intro hng hbody hidx prev hprev htag
    simp [Tabs.insertTab, if_neg hng, hbody, hidx, hprev, htag]
  · intro hng a ha
    rw [Tabs.insertTab, if_neg hng] at ha
    by_cases hbody : (groupBody tb.groupId tr).isSome
    · rw [if_pos hbody] at ha
      by_cases hidx : tb.index = 0
      · simp [hidx] at ha
      · rw [if_neg hidx] at ha
        cases hprev : (flatTabs tr)[tb.index - 1]? with
        | none => rw [hprev] at ha; simp at ha
        | some prev =>
          rw [hprev] at ha
          dsimp only at ha
          by_cases htag : prev.tag = tb.groupId
          · rw [if_pos htag] at ha
            simp only [Option.some.injEq] at ha
            exact ⟨prev, rfl, hidx, htag, ha.symm⟩
          · rw [if_neg htag] at ha; simp at ha
    · rw [if_neg hbody] at ha; simp at ha
  · intro hng hlen
    have h1 : tb.index ≠ (flatTabs tr).length := Nat.ne_of_gt hlen
    have h2 : ¬ tb.index < (flatTabs tr).length := Nat.not_lt.mpr (Nat.le_of_lt hlen)
    simp [Tabs.insertTab, hng, h1, h2]
  · simp only [Tabs.insertTab]
    repeat' split
    all_goals intro hx
    all_goals first
    | rfl
    | simp at hx

/-- Witness for C5 on concrete trees covering the append and grouped cases. -/
theorem C5_witness :
    Tabs.insertTab [DomNode.tab ⟨1, -1, false, false⟩] ⟨9, 0, 1, -1, false, false⟩
      = { action := some InsertAction.appendEnd, rebuild := false } ∧
    Tabs.insertTab [DomNode.group 4 [⟨1, 4, false, false⟩]] ⟨9, 0, 1, 4, false, false⟩
      = { action := some (InsertAction.afterTab 1), rebuild := false } :=
  ⟨(C5_insert_policy [DomNode.tab ⟨1, -1, false, false⟩] ⟨9, 0, 1, -1, false, false⟩).1
      rfl (by decide),
   (C5_insert_policy [DomNode.group 4 [⟨1, 4, false, false⟩]] ⟨9, 0, 1, 4, false, false⟩).2.2.1
      (by decide) (by decide) (by decide) ⟨1, 4, false, false⟩ (by decide) rfl⟩

theorem tabInGroupBody_eq_isSome (rid : Nat) (tr : TabList) :
    tabInGroupBody rid tr = (enclosingGroupOf rid tr).isSome := by
  induction tr with
  | nil => rfl
  | cons n r ih =>
    cases n with
    | tab t => simpa [tabInGroupBody, enclosingGroupOf] using ih
    | group g b =>
      by_cases hb : b.any (fun t => t.id == rid)
      · simp [tabInGroupBody, enclosingGroupOf, hb]
      · simpa [tabInGroupBody, enclosingGroupOf, hb] using ih

theorem any_id_insertBody (x : TabNode) (rid : Nat) (b : List TabNode) :
    (insertBeforeTabBody x rid b).any (fun t => t.id == rid)
      = b.any (fun t => t.id == rid) := by
  induction b with
  | nil => rfl
  | cons t ts ih =>
    by_cases ht : t.id = rid
    · simp [insertBeforeTabBody, ht]
    · simp [insertBeforeTabBody, ht, ih]

theorem tabInGroupBody_insertBeforeTab (x : TabNode) (rid : Nat) (tr : TabList) :
    tabInGroupBody rid (insertBeforeTab x rid tr) = tabInGroupBody rid tr := by
  induction tr with
  | nil => rfl
  | cons n r ih =>
    cases n with
    | tab t =>
      by_cases ht : t.id = rid
      · simp [insertBeforeTab, ht, tabInGroupBody]
      · simp [insertBeforeTab, ht, tabInGroupBody, ih]
    | group g b =>
      by_cases hb : b.any (fun t => t.id == rid)
      · simp [insertBeforeTab, hb, tabInGroupBody, any_id_insertBody, hb]
      · simp [insertBeforeTab, hb, tabInGroupBody, ih]

theorem any_id_filter_ne (b : List TabNode) (rid tid : Nat) (h : rid ≠ tid) :
    (b.filter (fun t => t.id != tid)).any (fun t => t.id == rid)
      = b.any (fun t => t.id == rid) := by
  have h' : tid ≠ rid := Ne.symm h
  induction b with
  | nil => rfl
  | cons t ts ih =>
    by_cases ht : t.id = tid
    · simp [List.filter_cons, ht, h', ih]
    · by_cases hr : t.id = rid
      · simp [List.filter_cons, ht, hr, h]
      · simp [List.filter_cons, ht, hr, ih]

theorem tabInGroupBody_eraseTab (rid tid : Nat) (tr : TabList) (h : rid ≠ tid) :
    tabInGroupBody rid (eraseTab tid tr) = tabInGroupBody rid tr := by
  induction tr with
  | nil => rfl
  | cons n r ih =>
    cases n with
    | tab t =>
      by_cases ht : t.id = tid
      · simp [eraseTab, ht, tabInGroupBody, ih]
      · simp [eraseTab, ht, tabInGroupBody, ih]
    | group g b =>
      simp [eraseTab, tabInGroupBody, any_id_filter_ne b rid tid h, ih]

theorem find_id_filter_ne (b : List TabNode) (rid tid : Nat) (h : rid ≠ tid) :
    (b.filter (fun t => t.id != tid)).find? (fun t => t.id == rid)
      = b.find? (fun t => t.id == rid) := by
  have h' : tid ≠ rid := Ne.symm h
  induction b with
  | nil => rfl
  | cons t ts ih =>
    by_cases ht : t.id = tid
    · simp [List.filter_cons, ht, h', ih]
    · by_cases hr : t.id = rid
      · simp [List.filter_cons, ht, hr, h]
      · simp [List.filter_cons, ht, hr, ih]

theorem findTabNode_eraseTab (rid tid : Nat) (tr : TabList) (h : rid ≠ tid) :
    findTabNode rid (eraseTab tid tr) = findTabNode rid tr := by
  have h' : tid ≠ rid := Ne.symm h
  induction tr with
  | nil => rfl
  | cons n r ih =>
    cases n with
    | tab t =>
      by_cases ht : t.id = tid
      · simp [eraseTab, ht, findTabNode, h', ih]
      · by_cases hr : t.id = rid
        · simp [eraseTab, ht, findTabNode, hr, h]
        · simp [eraseTab, ht, findTabNode, hr, ih]
    | group g b =>
      simp only [eraseTab, findTabNode, find_id_filter_ne b rid tid h]
      cases hb : b.find? (fun t => t.id == rid) with
      | none => simpa using ih
      | some t1 => simp

theorem find_id_insertBody (x : TabNode) (rid : Nat) (b : List TabNode)
    (h : x.id ≠ rid) :
    (insertBeforeTabBody x rid b).find? (fun t => t.id == rid)
      = b.find? (fun t => t.id == rid) := by
  induction b with
  | nil => rfl
  | cons t ts ih =>
    by_cases ht : t.id = rid
    · simp [insertBeforeTabBody, ht, h]
    · simp [insertBeforeTabBody, ht, ih]

theorem findTabNode_insertBeforeTab (x : TabNode) (rid : Nat) (tr : TabList)
    (h : x.id ≠ rid) :
    findTabNode rid (insertBeforeTab x rid tr) = findTabNode rid tr := by
  induction tr with
  | nil => rfl
  | cons n r ih =>
    cases n with
    | tab t =>
      by_cases ht : t.id = rid
      · simp [insertBeforeTab, ht, findTabNode, h]
      · simp [insertBeforeTab, ht, findTabNode, ih]
    | group g b =>
      by_cases hb : b.any (fun t => t.id == rid)
      · simp only [insertBeforeTab, hb, if_pos, findTabNode,
          find_id_insertBody x rid b h]
      · simp only [insertBeforeTab, hb, if_neg, Bool.false_eq_true, not_false_eq_true,
          findTabNode]
        cases hf : b.find? (fun t => t.id == rid) with
        | none => simpa using ih
        | some t1 => simp

theorem mem_flatIds_of_enclosing (rid : Nat) (g : Int) (tr : TabList)
    (h : enclosingGroupOf rid tr = some g) : rid ∈ flatIds tr := by
  induction tr with
  | nil => cases h
  | cons n r ih =>
    cases n with
    | tab t =>
      rw [enclosingGroupOf] at h
      simp only [flatIds, flatTabs, List.map_cons, List.mem_cons]
      exact Or.inr (ih h)
    | group g2 b =>
      by_cases hb : b.any (fun t => t.id == rid)
      · obtain ⟨x, hx, hpx⟩ := List.any_eq_true.mp hb
        simp only [flatIds, flatTabs, List.map_append, List.mem_append]
        exact Or.inl (List.mem_map.mpr ⟨x, hx, by simpa using hpx⟩)
      · rw [enclosingGroupOf, if_neg (by simpa using hb)] at h
        simp only [flatIds, flatTabs, List.map_append, List.mem_append]
        exact Or.inr (ih h)

theorem enclosing_tag (rid : Nat) (g : Int) (tr : TabList)
    (hW : wfTags tr = true) (hnd : (flatIds tr).Nodup)
    (h : enclosingGroupOf rid tr = some g) :
    ∃ t0, findTabNode rid tr = some t0 ∧ t0.tag = g ∧ g ≠ 0 := by
  induction tr with
  | nil => cases h
  | cons n r ih =>
    cases n with
    | tab t =>
      rw [enclosingGroupOf] at h
      have hW' : wfTags r = true := by
        simp only [wfTags, List.all_cons, Bool.and_eq_true] at hW
        exact hW.2
      have hnd' : (flatIds r).Nodup := by
        simp only [flatIds, flatTabs, List.map_cons] at hnd
        exact hnd.of_cons
      obtain ⟨t0, hf, htag, hg⟩ := ih hW' hnd' h
      by_cases heq : t.id = rid
      · exfalso
        have hmem : rid ∈ flatIds r := mem_flatIds_of_enclosing rid g r h
        simp only [flatIds, flatTabs, List.map_cons, List.nodup_cons] at hnd
        exact hnd.1 (heq ▸ hmem)
      · rw [findTabNode, if_neg heq]
        exact ⟨t0, hf, htag, hg⟩
    | group g2 b =>
      have hWn : nodeWFTags (DomNode.group g2 b) = true := by
        simp only [wfTags, List.all_cons, Bool.and_eq_true] at hW
        exact hW.1
      simp only [nodeWFTags, Bool.and_eq_true, bne_iff_ne, List.all_eq_true] at hWn
      by_cases hb : b.any (fun t => t.id == rid)
      · rw [enclosingGroupOf, if_pos (by simpa using hb)] at h
        injection h with hgg
        obtain ⟨x, hx, hpx⟩ := List.any_eq_true.mp hb
        cases hf : b.find? (fun t => t.id == rid) with
        | none =>
          exfalso
          rw [List.find?_eq_none] at hf
          exact hf x hx hpx
        | some t1 =>
          have ht1 : t1 ∈ b := List.mem_of_find?_eq_some hf
          have htag : t1.tag = g2 := by simpa using hWn.2 t1 ht1
          refine ⟨t1, ?_, ?_, ?_⟩
          · simp only [findTabNode, hf]
          · rw [htag, hgg]
          · rw [← hgg]
            exact hWn.1
      · rw [enclosingGroupOf, if_neg (by simpa using hb)] at h
        have hW' : wfTags r = true := by
          simp only [wfTags, List.all_cons, Bool.and_eq_true] at hW
          exact hW.2
        have hnd' : (flatIds r).Nodup := by
          simp only [flatIds, flatTabs, List.map_append] at hnd
          exact (List.nodup_append.mp hnd).2.1
        obtain ⟨t0, hf, htag, hg⟩ := ih hW' hnd' h
        cases hfb : b.find? (fun t => t.id == rid) with
        | some t1 =>
          exfalso
          have ht1 : t1 ∈ b := List.mem_of_find?_eq_some hfb
          have hp := @List.find?_some TabNode (fun t => t.id == rid) t1 b hfb
          exact hb (List.any_eq_true.mpr ⟨t1, ht1, hp⟩)
        | none =>
          simp only [findTabNode, hfb]
          exact ⟨t0, hf, htag, hg⟩

/-- C1 (amended): for every tab drop, `DnD.moveTab` always finishes with a
full rebuild from ground truth; it first issues move-to-index computed
from the current (post-optimistic-move) rendered flat tab order, and after
it the group adjustment: ungroup when the drop target is a group container
or the tab now sits immediately after a group; group-with the enclosing
group's id when the drop target lies inside a group's run; nothing
otherwise.  (The claim's order — group/ungroup before move-to-index — is
refuted by `C1_counterexample`.) -/
theorem C1_tab_drop_protocol (tr : TabList) (x : TabNode) (ref : DropRef)
    (hW : wfTags tr = true) (hnd : (flatIds tr).Nodup) :
    (DnD.moveTab tr x ref).rebuild = true ∧
    (∀ g, ref = DropRef.groupC g →
       (DnD.moveTab tr x ref).calls
         = [ApiCall.move x.id (moveTabNewIndex tr x ref), ApiCall.ungroup x.id]) ∧
    (∀ r, ref = DropRef.tabAt r → r ≠ x.id →
       enclosingGroupOf r tr = none →
       isAfterGroup x.id (optimisticTabTree tr x ref) = true →
       (DnD.moveTab tr x ref).calls
         = [ApiCall.move x.id (moveTabNewIndex tr x ref), ApiCall.ungroup x.id]) ∧
    (ref = DropRef.fakeBottom →
       isAfterGroup x.id (optimisticTabTree tr x ref) = true →
       (DnD.moveTab tr x ref).calls
         = [ApiCall.move x.id (moveTabNewIndex tr x ref), ApiCall.ungroup x.id]) ∧
    (∀ r g, ref = DropRef.tabAt r → r ≠ x.id →
       enclosingGroupOf r tr = some g →
       (DnD.moveTab tr x ref).calls
         = [ApiCall.move x.id (moveTabNewIndex tr x ref), ApiCall.groupWith g x.id]) ∧
    (∀ r, ref = DropRef.tabAt r → r ≠ x.id →
       enclosingGroupOf r tr = none →
       isAfterGroup x.id (optimisticTabTree tr x ref) = false →
       (DnD.moveTab tr x ref).calls = [ApiCall.move x.id (moveTabNewIndex tr x ref)]) ∧
    (ref = DropRef.fakeBottom →
       isAfterGroup x.id (optimisticTabTree tr x ref) = false →
       (DnD.moveTab tr x ref).calls = [ApiCall.move x.id (moveTabNewIndex tr x ref)]) := by
  refine ⟨?_, ?_, ?_, ?_, ?_, ?_, ?_⟩
  · cases ref <;> rfl
  · intro g h
    subst h
    simp [DnD.moveTab]
  · intro r h hne hencl hafter
    subst h
    have hbody : tabInGroupBody r (optimisticTabTree tr x (DropRef.tabAt r)) = false := by
      show tabInGroupBody r (insertBeforeTab x r (eraseTab x.id tr)) = false
      rw [tabInGroupBody_insertBeforeTab, tabInGroupBody_eraseTab r x.id tr hne,
        tabInGroupBody_eq_isSome, hencl]
      rfl
    simp [DnD.moveTab, hbody, hafter]
  · intro h hafter
    subst h
    simp [DnD.moveTab, hafter]
  · intro r g h hne hencl
    subst h
    obtain ⟨t0, hfind, htag, hg⟩ := enclosing_tag r g tr hW hnd hencl
    have hbody : tabInGroupBody r (optimisticTabTree tr x (DropRef.tabAt r)) = true := by
      show tabInGroupBody r (insertBeforeTab x r (eraseTab x.id tr)) = true
      rw [tabInGroupBody_insertBeforeTab, tabInGroupBody_eraseTab r x.id tr hne,
        tabInGroupBody_eq_isSome, hencl]
      rfl
    have hfind' : findTabNode r (optimisticTabTree tr x (DropRef.tabAt r)) = some t0 := by
      show findTabNode r (insertBeforeTab x r (eraseTab x.id tr)) = some t0
      rw [findTabNode_insertBeforeTab x r _ (Ne.symm hne),
        findTabNode_eraseTab r x.id tr hne, hfind]
    simp [DnD.moveTab, hbody, hfind', htag, hg]
  · intro r h hne hencl hafter
    subst h
    have hbody : tabInGroupBody r (optimisticTabTree tr x (DropRef.tabAt r)) = false := by
      show tabInGroupBody r (insertBeforeTab x r (eraseTab x.id tr)) = false
      rw [tabInGroupBody_insertBeforeTab, tabInGroupBody_eraseTab r x.id tr hne,
        tabInGroupBody_eq_isSome, hencl]
      rfl
    simp [DnD.moveTab, hbody, hafter]
  · intro h hafter
    subst h
    simp [DnD.moveTab, hafter]

/-- Counterexample to C1 as stated: the claim sequences the group call
before move-to-index, but on a concrete drop into a group's run the engine
issues move-to-index first and the group call second. -/
theorem C1_counterexample :
    (DnD.moveTab
        [DomNode.group 7 [⟨2, 7, false, false⟩, ⟨3, 7, false, false⟩],
         DomNode.tab ⟨5, -1, false, false⟩]
        ⟨5, -1, false, false⟩ (DropRef.tabAt 2)).calls
      = [ApiCall.move 5 0, ApiCall.groupWith 7 5] ∧
    (DnD.moveTab
        [DomNode.group 7 [⟨2, 7, false, false⟩, ⟨3, 7, false, false⟩],
         DomNode.tab ⟨5, -1, false, false⟩]
        ⟨5, -1, false, false⟩ (DropRef.tabAt 2)).calls
      ≠ [ApiCall.groupWith 7 5, ApiCall.move 5 0] := by decide

/-- Witness for C1 at a concrete drop into a group's run. -/
theorem C1_witness :
    (DnD.moveTab
        [DomNode.group 7 [⟨2, 7, false, false⟩, ⟨3, 7, false, false⟩],
         DomNode.tab ⟨5, -1, false, false⟩]
        ⟨5, -1, false, false⟩ (DropRef.tabAt 3)).calls
      = [ApiCall.move 5 1, ApiCall.groupWith 7 5] :=
  ((C1_tab_drop_protocol
      [DomNode.group 7 [⟨2, 7, false, false⟩, ⟨3, 7, false, false⟩],
       DomNode.tab ⟨5, -1, false, false⟩]
      ⟨5, -1, false, false⟩ (DropRef.tabAt 3) (by decide) (by decide)).2.2.2.2.1)
    3 7 rfl (by decide) (by decide)

theorem idxOf_neg_one_or_nonneg (x : Nat) (l : List Nat) :
    idxOf x l = -1 ∨ 0 ≤ idxOf x l := by
  induction l with
  | nil => exact Or.inl rfl
  | cons y ys ih =>
    by_cases hy : y = x
    · right
      simp [idxOf, hy]
    · rcases ih with h | h
      · left
        simp [idxOf, hy, h]
      · right
        have hne : idxOf x ys ≠ -1 := by omega
        simp only [idxOf, hy, if_false, if_neg hne]
        omega

theorem idxOf_mem (x : Nat) (l : List Nat) (h : x ∈ l) : 0 ≤ idxOf x l := by
  induction l with
  | nil => cases h
  | cons y ys ih =>
    by_cases hy : y = x
    · simp [idxOf, hy]
    · have hx : x ∈ ys := by
        rcases List.mem_cons.mp h with hEq | hmem
        · exact absurd hEq.symm hy
        · exact hmem
      have h0 := ih hx
      have hne : idxOf x ys ≠ -1 := by omega
      simp only [idxOf, hy, if_false, if_neg hne]
      omega

theorem idxOf_inj (x y : Nat) (l : List Nat) (hx : x ∈ l)
    (h : idxOf x l = idxOf y l) : x = y := by
  induction l with
  | nil => cases hx
  | cons a t ih =>
    by_cases hax : a = x
    · by_cases hay : a = y
      · rw [← hax, hay]
      · exfalso
        rw [idxOf, if_pos hax, idxOf, if_neg hay] at h
        rcases idxOf_neg_one_or_nonneg y t with h1 | h1
        · rw [if_pos h1] at h
          omega
        · have hne : idxOf y t ≠ -1 := by omega
          rw [if_neg hne] at h
          omega
    · have hxt : x ∈ t := by
        rcases List.mem_cons.mp hx with hEq | hmem
        · exact absurd hEq.symm hax
        · exact hmem
      have h0 := idxOf_mem x t hxt
      have hnex : idxOf x t ≠ -1 := by omega
      rw [idxOf, if_neg hax, if_neg hnex] at h
      by_cases hay : a = y
      · exfalso
        rw [idxOf, if_pos hay] at h
        omega
      · rw [idxOf, if_neg hay] at h
        rcases idxOf_neg_one_or_nonneg y t with h1 | h1
        · rw [if_pos h1] at h
          omega
        · have hney : idxOf y t ≠ -1 := by omega
          rw [if_neg hney] at h
          exact ih hxt (by omega)

theorem mem_flatTabs_of_groupBody (gid : Int) (tr : TabList) (b : List TabNode)
    (hb : groupBody gid tr = some b) (t : TabNode) (ht : t ∈ b) :
    t ∈ flatTabs tr := by
  induction tr with
  | nil => cases hb
  | cons n r ih =>
    cases n with
    | tab t2 =>
      rw [groupBody] at hb
      simp only [flatTabs, List.mem_cons]
      exact Or.inr (ih hb)
    | group g2 b2 =>
      by_cases hg : g2 = gid
      · rw [groupBody, if_pos hg] at hb
        injection hb with hbb
        simp only [flatTabs, List.mem_append]
        exact Or.inl (hbb ▸ ht)
      · rw [groupBody, if_neg hg] at hb
        simp only [flatTabs, List.mem_append]
        exact Or.inr (ih hb)

theorem bodies_disjoint (tr : TabList) (g g2 : Int) (b b2 : List TabNode)
    (hnd : (flatIds tr).Nodup) (hgg : g ≠ g2)
    (h1 : groupBody g tr = some b) (h2 : groupBody g2 tr = some b2)
    (w : Nat) (hw1 : w ∈ b.map (·.id)) (hw2 : w ∈ b2.map (·.id)) : False := by
  induction tr with
  | nil => cases h1
  | cons n r ih =>
    cases n with
    | tab t =>
      rw [groupBody] at h1 h2
      have hnd' : (flatIds r).Nodup := by
        simp only [flatIds, flatTabs, List.map_cons] at hnd
        exact hnd.of_cons
      exact ih hnd' h1 h2
    | group gh bh =>
      have hnd2 : ((bh.map (·.id)) ++ flatIds r).Nodup := by
        simpa [flatIds, flatTabs, List.map_append] using hnd
      have hdisj := (List.nodup_append.mp hnd2).2.2
      by_cases hgh1 : gh = g
      · rw [groupBody, if_pos hgh1] at h1
        injection h1 with hb1
        have hgh2 : ¬ gh = g2 := fun e => hgg ((hgh1.symm.trans e))
        rw [groupBody, if_neg hgh2] at h2
        obtain ⟨t2, ht2, hid2⟩ := List.mem_map.mp hw2
        have : t2 ∈ flatTabs r := mem_flatTabs_of_groupBody g2 r b2 h2 t2 ht2
        have hwr : w ∈ flatIds r := by
          simp only [flatIds, List.mem_map]
          exact ⟨t2, this, hid2⟩
        exact hdisj (hb1 ▸ hw1) hwr
      · by_cases hgh2 : gh = g2
        · rw [groupBody, if_pos hgh2] at h2
          injection h2 with hb2
          rw [groupBody, if_neg hgh1] at h1
          obtain ⟨t1, ht1, hid1⟩ := List.mem_map.mp hw1
          have : t1 ∈ flatTabs r := mem_flatTabs_of_groupBody g r b h1 t1 ht1
          have hwr : w ∈ flatIds r := by
            simp only [flatIds, List.mem_map]
            exact ⟨t1, this, hid1⟩
          exact hdisj (hb2 ▸ hw2) hwr
        · rw [groupBody, if_neg hgh1] at h1
          rw [groupBody, if_neg hgh2] at h2
          exact ih (List.nodup_append.mp hnd2).2.1 h1 h2

/-- C2: for every group drop that passes the drop guards (not onto the
dragged group itself, drop target not one of its own member tabs) on a
well-formed tree with a nonempty dragged group whose metadata is cached:
a move to a strictly earlier flat position issues the single direct
`chrome.tabGroups.move`; a move to an equal-or-later position (equality is
unreachable under the guards) or past the last item ungroups all member
tabs, moves each to the target index in sequence, regroups them into a new
group, and reapplies the original group's collapsed/color/title to the new
group id. -/
theorem C2_group_drop_protocol (tr : TabList) (cache : List (Int × GroupInfo))
    (gid : Int) (ref : DropRef) (members : List TabNode) (info : GroupInfo)
    (hnd : (flatIds tr).Nodup)
    (hbody : groupBody gid tr = some members)
    (hmem : members ≠ [])
    (hcache : lookupCache cache gid = some info)
    (hrefne : ref ≠ DropRef.groupC gid)
    (hthrow : groupDropThrows tr gid ref = false) :
    (DnD.moveGroup tr cache gid ref).rebuild = true ∧
    (0 ≤ groupNewIndex tr ref → groupNewIndex tr ref < groupOldIndex tr gid →
       (DnD.moveGroup tr cache gid ref).calls
         = [ApiCall.moveGroupTo gid (groupNewIndex tr ref)]) ∧
    ((groupNewIndex tr ref = -1 ∨ groupOldIndex tr gid ≤ groupNewIndex tr ref) →
       (DnD.moveGroup tr cache gid ref).calls
         = ApiCall.ungroupMany (members.map (·.id)) ::
             ((members.map (·.id)).map (fun t => ApiCall.move t
               (if groupNewIndex tr ref = -1 then groupNewIndex tr ref
                else groupNewIndex tr ref - 1))) ++
             [ApiCall.groupNew (members.map (·.id)),
              ApiCall.updateNewGroup info.collapsed info.color info.title]) := by
  obtain ⟨m0, ms, rfl⟩ : ∃ m0 ms, members = m0 :: ms := by
    cases members with
    | nil => exact absurd rfl hmem
    | cons a l => exact ⟨a, l, rfl⟩
  have hthrow' : ¬ (groupDropThrows tr gid ref = true) := by
    simp [hthrow]
  have hm0flat : m0 ∈ flatTabs tr :=
    mem_flatTabs_of_groupBody gid tr _ hbody m0 (List.mem_cons_self _ _)
  have hm0id : m0.id ∈ flatIds tr := by
    simp only [flatIds, List.mem_map]
    exact ⟨m0, hm0flat, rfl⟩
  have hold : groupOldIndex tr gid = idxOf m0.id (flatIds tr) := by
    rw [groupOldIndex, hbody]
    rfl
  have hold0 : 0 ≤ groupOldIndex tr gid := by
    rw [hold]
    exact idxOf_mem _ _ hm0id
  have hkey : 0 ≤ groupNewIndex tr ref → groupNewIndex tr ref ≠ groupOldIndex tr gid := by
    intro hn hEq
    cases ref with
    | tabAt r =>
      have hnval : groupNewIndex tr (DropRef.tabAt r) = idxOf r (flatIds tr) := by
        simp [groupNewIndex, jsIndexOfOpt]
      rw [hnval, hold] at hEq
      have hidr : m0.id = r := idxOf_inj m0.id r _ hm0id hEq.symm
      have hthr : groupDropThrows tr gid (DropRef.tabAt r) = true := by
        simp only [groupDropThrows, hbody, Option.getD_some]
        exact List.any_eq_true.mpr ⟨m0, List.mem_cons_self _ _, by simp [hidr]⟩
      rw [hthrow] at hthr
      cases hthr
    | groupC g2 =>
      have hg2 : g2 ≠ gid := fun e => hrefne (by rw [e])
      cases hb2 : groupBody g2 tr with
      | none =>
        have : groupNewIndex tr (DropRef.groupC g2) = -1 := by
          simp [groupNewIndex, hb2, jsIndexOfOpt]
        omega
      | some b2 =>
        cases b2 with
        | nil =>
          have : groupNewIndex tr (DropRef.groupC g2) = -1 := by
            simp [groupNewIndex, hb2, jsIndexOfOpt]
          omega
        | cons t2 ts2 =>
          have hnval : groupNewIndex tr (DropRef.groupC g2) = idxOf t2.id (flatIds tr) := by
            simp [groupNewIndex, hb2, jsIndexOfOpt]
          rw [hnval, hold] at hEq
          have hid2 : m0.id = t2.id := idxOf_inj m0.id t2.id _ hm0id hEq.symm
          exact bodies_disjoint tr gid g2 (m0 :: ms) (t2 :: ts2) hnd (Ne.symm hg2)
            hbody hb2 m0.id (by simp) (by simp [hid2])
    | fakeBottom =>
      have : groupNewIndex tr DropRef.fakeBottom = -1 := by
        simp [groupNewIndex, jsIndexOfOpt]
      omega
  refine ⟨?_, ?_, ?_⟩
  · simp only [DnD.moveGroup]
    repeat' split
    all_goals rfl
  · intro h0 hlt
    have hnot : ¬ (groupNewIndex tr ref = -1 ∨ groupOldIndex tr gid < groupNewIndex tr ref) := by
      push_neg
      omega
    simp only [DnD.moveGroup]
    rw [if_neg hthrow', if_neg hnot, if_pos hlt]
  · intro hor
    have hcond : groupNewIndex tr ref = -1 ∨ groupOldIndex tr gid < groupNewIndex tr ref := by
      rcases hor with h | h
      · exact Or.inl h
      · have hn0 : 0 ≤ groupNewIndex tr ref := by omega
        have := hkey hn0
        right
        omega
    simp only [DnD.moveGroup]
    rw [if_neg hthrow', if_pos hcond, hbody]
    simp only [Option.getD_some, hcache]

/-- Witness for C2 at a concrete forward group drop. -/
theorem C2_witness :
    (DnD.moveGroup
        [DomNode.group 1 [⟨1, 1, false, false⟩, ⟨2, 1, false, false⟩],
         DomNode.tab ⟨3, -1, false, false⟩]
        [(1, ⟨"work", "blue", true⟩)] 1 (DropRef.tabAt 3)).calls
      = ApiCall.ungroupMany [1, 2] ::
          ([1, 2].map (fun t => ApiCall.move t ((2 : Int) - 1))) ++
          [ApiCall.groupNew [1, 2], ApiCall.updateNewGroup true "blue" "work"] :=
  (C2_group_drop_protocol
      [DomNode.group 1 [⟨1, 1, false, false⟩, ⟨2, 1, false, false⟩],
       DomNode.tab ⟨3, -1, false, false⟩]
      [(1, ⟨"work", "blue", true⟩)] 1 (DropRef.tabAt 3)
      [⟨1, 1, false, false⟩, ⟨2, 1, false, false⟩] ⟨"work", "blue", true⟩
      (by decide) rfl (by decide) rfl (by decide) rfl).2.2
    (Or.inr (by decide))
